import Mathlib

set_option autoImplicit false

namespace DevPrism

/-! ### Embedding of `src/lib/ports.ts`

`extractPorts` walks a list of Docker port mappings and builds a record
mapping `SERVICE_PORT` env-var names to external ports.  A JavaScript
object is modelled as an insertion-ordered association list with unique
keys: assigning to an existing key updates its value in place, assigning
to a fresh key appends it at the end. -/

structure PortMapping where
  service : String
  internalPort : Nat
  externalPort : Nat
  deriving DecidableEq, Repr

/-- JavaScript `String.prototype.toUpperCase` restricted to ASCII,
mapping `Char.toUpper` over the characters of the string. -/
def upper (s : String) : String := ⟨s.data.map Char.toUpper⟩

/-- The env-var name built for one mapping in `extractPorts`:
upper-cased service name followed by the literal suffix. -/
def envVarName (service : String) : String := upper service ++ "_PORT"

/-- JavaScript object assignment `o[k] = v` on an insertion-ordered
association list: replace the value of the first entry with key `k`
(objects hold each key once, so this is the entry), else append. -/
def recordSet : List (String × Nat) → String → Nat → List (String × Nat)
  | [], k, v => [(k, v)]
  | p :: rest, k, v => if p.1 = k then (k, v) :: rest else p :: recordSet rest k v

/-- JavaScript object read `o[k]`. -/
def recordGet (o : List (String × Nat)) (k : String) : Option Nat :=
  (o.find? (fun p => p.1 == k)).map Prod.snd

/-- One step of the loop body of `extractPorts`:
`ports[mapping.service.toUpperCase() + "_PORT"] = mapping.externalPort`. -/
def portsStep (ports : List (String × Nat)) (m : PortMapping) : List (String × Nat) :=
  recordSet ports (envVarName m.service) m.externalPort

/-- `extractPorts` from `src/lib/ports.ts`. -/
def extractPorts (portMappings : List PortMapping) : List (String × Nat) :=
  portMappings.foldl portsStep []

theorem recordGet_recordSet (o : List (String × Nat)) (k : String) (v : Nat) (k' : String) :
    recordGet (recordSet o k v) k' = if k' = k then some v else recordGet o k' := by
  induction o with
  | nil =>
    by_cases h : k' = k
    · subst h; simp [recordSet, recordGet]
    · simp [recordSet, recordGet, h, Ne.symm h]
  | cons p rest ih =>
    by_cases hp : p.1 = k
    · subst hp
      by_cases h : k' = p.1
      · subst h; simp [recordSet, recordGet]
      · simp [recordSet, recordGet, h, Ne.symm h]
    · simp only [recordSet, if_neg hp]
      by_cases hpk' : p.1 = k'
      · have hk : ¬ (k' = k) := fun hc => hp (hpk'.trans hc)
        simp [recordGet, hpk', hk]
      · by_cases h : k' = k
        · simp only [recordGet] at ih ⊢
          rw [List.find?_cons_of_neg _ (by simpa using hpk'),
            List.find?_cons_of_neg _ (by simpa using hpk')]
          simpa [h] using ih
        · simp only [recordGet] at ih ⊢
          rw [List.find?_cons_of_neg _ (by simpa using hpk'),
            List.find?_cons_of_neg _ (by simpa using hpk')]
          simpa [h] using ih

theorem recordSet_keys (o : List (String × Nat)) (k : String) (v : Nat) :
    (recordSet o k v).map Prod.fst =
      if k ∈ o.map Prod.fst then o.map Prod.fst else o.map Prod.fst ++ [k] := by
  induction o with
  | nil => simp [recordSet]
  | cons p rest ih =>
    by_cases hp : p.1 = k
    · simp [recordSet, hp]
    · by_cases hk : k ∈ rest.map Prod.fst
      · simp [recordSet, hp, ih, hk, Ne.symm hp]
      · simp [recordSet, hp, ih, hk, Ne.symm hp]

theorem mem_recordSet_keys (o : List (String × Nat)) (k : String) (v : Nat) (k' : String) :
    k' ∈ (recordSet o k v).map Prod.fst ↔ k' ∈ o.map Prod.fst ∨ k' = k := by
  rw [recordSet_keys]
  by_cases hk : k ∈ o.map Prod.fst
  · simp only [if_pos hk]
    constructor
    · exact Or.inl
    · rintro (h | rfl)
      · exact h
      · exact hk
  · simp [if_neg hk]

theorem recordSet_keys_nodup (o : List (String × Nat)) (k : String) (v : Nat)
    (h : (o.map Prod.fst).Nodup) : ((recordSet o k v).map Prod.fst).Nodup := by
  rw [recordSet_keys]
  by_cases hk : k ∈ o.map Prod.fst
  · simpa [if_pos hk] using h
  · simp only [if_neg hk]
    rw [List.nodup_append]
    refine ⟨h, List.nodup_singleton _, ?_⟩
    intro a ha hb
    simp only [List.mem_singleton] at hb
    exact hk (hb ▸ ha)

theorem getLast?_cons' {α : Type} (l : List α) : ∀ (a : α),
    (a :: l).getLast? = some (match l.getLast? with | some b => b | none => a) := by
  induction l with
  | nil => intro a; simp
  | cons b t ih =>
    intro a
    rw [List.getLast?_cons_cons, ih b]

theorem foldl_portsStep_get (ms : List PortMapping) : ∀ (acc : List (String × Nat)) (k : String),
    recordGet (ms.foldl portsStep acc) k =
      match (ms.filter (fun m => envVarName m.service == k)).getLast? with
      | some m => some m.externalPort
      | none => recordGet acc k := by
  induction ms with
  | nil => intro acc k; simp
  | cons m rest ih =>
    intro acc k
    rw [List.foldl_cons, ih]
    by_cases hm : envVarName m.service = k
    · rw [List.filter_cons_of_pos (by simpa using hm), getLast?_cons']
      cases hfl : (rest.filter (fun m' => envVarName m'.service == k)).getLast? with
      | some m' => simp [hfl]
      | none => simp [hfl, portsStep, recordGet_recordSet, hm]
    · rw [List.filter_cons_of_neg (by simpa using hm)]
      cases hfl : (rest.filter (fun m' => envVarName m'.service == k)).getLast? with
      | some m' => simp [hfl]
      | none => simp [hfl, portsStep, recordGet_recordSet, Ne.symm hm]

theorem foldl_portsStep_keys (ms : List PortMapping) : ∀ (acc : List (String × Nat)) (k : String),
    k ∈ (ms.foldl portsStep acc).map Prod.fst ↔
      k ∈ acc.map Prod.fst ∨ k ∈ ms.map (fun m => envVarName m.service) := by
  induction ms with
  | nil => intro acc k; simp
  | cons m rest ih =>
    intro acc k
    rw [List.foldl_cons, ih]
    simp only [portsStep, mem_recordSet_keys, List.map_cons, List.mem_cons]
    tauto

theorem foldl_portsStep_nodup (ms : List PortMapping) : ∀ (acc : List (String × Nat)),
    (acc.map Prod.fst).Nodup → ((ms.foldl portsStep acc).map Prod.fst).Nodup := by
  induction ms with
  | nil => intro acc h; simpa using h
  | cons m rest ih =>
    intro acc h
    rw [List.foldl_cons]
    exact ih _ (recordSet_keys_nodup _ _ _ h)

/-- Claim C10: for every list of port mappings, `extractPorts` returns a record
whose keys are exactly the upper-cased service names suffixed with `_PORT`,
with no duplicate keys; looking a key up yields the external port of the
last mapping producing that key (later mappings silently overwrite earlier
ones), and the record has one entry per distinct key rather than one per
input mapping. -/
theorem extractPorts_record_semantics (ms : List PortMapping) :
    ((extractPorts ms).map Prod.fst).Nodup
    ∧ (∀ k, k ∈ (extractPorts ms).map Prod.fst ↔ k ∈ ms.map (fun m => envVarName m.service))
    ∧ (∀ k, recordGet (extractPorts ms) k =
        ((ms.filter (fun m => envVarName m.service == k)).getLast?).map (fun m => m.externalPort))
    ∧ (extractPorts ms).length = (ms.map (fun m => envVarName m.service)).toFinset.card := by
  have hnd := foldl_portsStep_nodup ms [] (by simp)
  have hmem : ∀ k, k ∈ (extractPorts ms).map Prod.fst ↔
      k ∈ ms.map (fun m => envVarName m.service) := fun k => by
    simpa using foldl_portsStep_keys ms [] k
  refine ⟨hnd, hmem, fun k => ?_, ?_⟩
  · rw [show extractPorts ms = ms.foldl portsStep [] from rfl, foldl_portsStep_get]
    cases h : (ms.filter (fun m => envVarName m.service == k)).getLast? <;>
      simp [h, recordGet]
  · have h1 : ((extractPorts ms).map Prod.fst).toFinset =
        (ms.map (fun m => envVarName m.service)).toFinset := by
      ext k
      simpa [List.mem_toFinset] using hmem k
    calc (extractPorts ms).length = ((extractPorts ms).map Prod.fst).length :=
          (List.length_map _ _).symm
      _ = ((extractPorts ms).map Prod.fst).toFinset.card :=
          (List.toFinset_card_of_nodup hnd).symm
      _ = (ms.map (fun m => envVarName m.service)).toFinset.card := by rw [h1]

/-! ### Embedding of `src/lib/worktree.ts`

`findNextSessionId` scans identifiers 1..999 in order, skipping identifiers
already used by a session worktree and, when a sessions directory is
supplied, identifiers whose `session-<id>` directory already exists on
disk.  The filesystem probe `existsSync` is modelled by the oracle
`dirExists`; `parseInt(s.sessionId, 10)` on the digit-string ids produced
by `getSessionWorktrees` is modelled by `parseIntDigits` (an unparseable
id yields no numeric value and can never collide with a candidate number,
matching `NaN`). -/

structure SessionWorktree where
  sessionId : String
  path : String
  branch : String
  deriving DecidableEq, Repr

/-- `parseInt(s, 10)` restricted to the all-digit strings matched by the
session-directory pattern in `getSessionWorktrees`: the base-10 value of a
nonempty digit string, no value otherwise. -/
def parseIntDigits (s : String) : Option Nat :=
  if s.data ≠ [] ∧ s.data.all (fun c => decide ('0' ≤ c) && decide (c ≤ '9')) then
    some (s.data.foldl (fun acc c => acc * 10 + (c.toNat - '0'.toNat)) 0)
  else none

/-- JavaScript `String(i).padStart(3, "0")`. -/
def pad3 (i : Nat) : String :=
  let s := toString i
  if s.length < 3 then String.mk (List.replicate (3 - s.length) '0') ++ s else s

/-- The directory probed on disk for candidate id `i`:
the template literal in `findNextSessionId`. -/
def sessionDirFor (sessionsDir : String) (i : Nat) : String :=
  sessionsDir ++ "/session-" ++ pad3 i

/-- Whether the loop body of `findNextSessionId` rejects candidate `i`:
either a session worktree already uses `i`, or a sessions directory was
supplied and `session-<id>` already exists on disk. -/
def idTaken (usedIds : List Nat) (sessionsDir : Option String) (dirExists : String → Bool)
    (i : Nat) : Bool :=
  decide (i ∈ usedIds) ||
    (match sessionsDir with
     | some d => dirExists (sessionDirFor d i)
     | none => false)

/-- The loop `for (let i = 1; i <= 999; i++)` of `findNextSessionId`,
falling through to the `throw` after 999. -/
def findNextGo (usedIds : List Nat) (sessionsDir : Option String) (dirExists : String → Bool)
    (i : Nat) : Except String String :=
  if h : i ≤ 999 then
    if idTaken usedIds sessionsDir dirExists i then
      findNextGo usedIds sessionsDir dirExists (i + 1)
    else .ok (pad3 i)
  else .error "No available session IDs (001-999 all in use)"
termination_by 1000 - i
decreasing_by omega

/-- `findNextSessionId` from `src/lib/worktree.ts`:
`usedIds` is built from the session worktrees, then the loop runs from 1. -/
def findNextSessionId (sessions : List SessionWorktree) (sessionsDir : Option String)
    (dirExists : String → Bool) : Except String String :=
  findNextGo (sessions.filterMap (fun s => parseIntDigits s.sessionId)) sessionsDir dirExists 1

theorem findNextGo_ok (usedIds : List Nat) (sessionsDir : Option String)
    (dirExists : String → Bool) (i : Nat) (h999 : i ≤ 999)
    (hfree : idTaken usedIds sessionsDir dirExists i = false) :
    ∀ (n i0 : Nat), i - i0 = n → i0 ≤ i →
      (∀ j, i0 ≤ j → j < i → idTaken usedIds sessionsDir dirExists j = true) →
      findNextGo usedIds sessionsDir dirExists i0 = .ok (pad3 i) := by
  intro n
  induction n with
  | zero =>
    intro i0 hn hle _
    have hi : i0 = i := by omega
    subst hi
    rw [findNextGo, dif_pos h999, hfree]
    simp
  | succ n ih =>
    intro i0 hn hle htaken
    have hi0 : i0 < i := by omega
    have h0 : i0 ≤ 999 := by omega
    rw [findNextGo, dif_pos h0, htaken i0 le_rfl hi0]
    simp only [if_true]
    exact ih (i0 + 1) (by omega) (by omega) (fun j hj1 hj2 => htaken j (by omega) hj2)

theorem findNextGo_error (usedIds : List Nat) (sessionsDir : Option String)
    (dirExists : String → Bool) :
    ∀ (n i0 : Nat), 1000 - i0 ≤ n →
      (∀ j, i0 ≤ j → j ≤ 999 → idTaken usedIds sessionsDir dirExists j = true) →
      findNextGo usedIds sessionsDir dirExists i0 =
        .error "No available session IDs (001-999 all in use)" := by
  intro n
  induction n with
  | zero =>
    intro i0 hn _
    have h0 : ¬ (i0 ≤ 999) := by omega
    rw [findNextGo, dif_neg h0]
  | succ n ih =>
    intro i0 hn htaken
    by_cases h0 : i0 ≤ 999
    · rw [findNextGo, dif_pos h0, htaken i0 le_rfl h0]
      simp only [if_true]
      exact ih (i0 + 1) (by omega) (fun j h1 h2 => htaken j (by omega) h2)
    · rw [findNextGo, dif_neg h0]

/-- Claim C9: `findNextSessionId` returns the zero-padded 3-digit string of the
smallest `i` in 1..999 that no session worktree uses and whose
`session-<id>` directory does not already exist (when a sessions directory
is supplied); when every identifier 1..999 is taken it throws the
`No available session IDs` error instead of returning a value. -/
theorem findNextSessionId_least (sessions : List SessionWorktree) (sessionsDir : Option String)
    (dirExists : String → Bool) :
    (∀ i, 1 ≤ i → i ≤ 999 →
      idTaken (sessions.filterMap (fun s => parseIntDigits s.sessionId)) sessionsDir dirExists i = false →
      (∀ j, 1 ≤ j → j < i →
        idTaken (sessions.filterMap (fun s => parseIntDigits s.sessionId)) sessionsDir dirExists j = true) →
      findNextSessionId sessions sessionsDir dirExists = .ok (pad3 i))
    ∧ ((∀ i, 1 ≤ i → i ≤ 999 →
        idTaken (sessions.filterMap (fun s => parseIntDigits s.sessionId)) sessionsDir dirExists i = true) →
      findNextSessionId sessions sessionsDir dirExists =
        .error "No available session IDs (001-999 all in use)") := by
  constructor
  · intro i h1 h999 hfree hleast
    exact findNextGo_ok _ sessionsDir dirExists i h999 hfree (i - 1) 1 rfl h1
      (fun j hj1 hj2 => hleast j hj1 hj2)
  · intro htaken
    exact findNextGo_error _ sessionsDir dirExists 999 1 (by omega)
      (fun j h1 h2 => htaken j h1 h2)

/-- Concrete instantiation of the C9 theorem: with worktree id `001` used,
no sessions directory, and nothing on disk, the next id is `002`; with a
sessions directory in which every candidate directory exists, the loop
throws. -/
theorem findNextSessionId_least_witness :
    findNextSessionId [⟨"001", "/s/session-001", "b"⟩] none (fun _ => false) =
        .ok (pad3 2)
    ∧ findNextSessionId [] (some "/s") (fun _ => true) =
        .error "No available session IDs (001-999 all in use)" := by
  constructor
  · exact (findNextSessionId_least [⟨"001", "/s/session-001", "b"⟩] none (fun _ => false)).1
      2 (by decide) (by decide) (by decide)
      (fun j h1 h2 => by
        have hj : j = 1 := by omega
        subst hj
        decide)
  · exact (findNextSessionId_least [] (some "/s") (fun _ => true)).2
      (fun i h1 h2 => by simp [idTaken])

/-! ### The session and port registry

The registry implementation (the `db.ts` / `store.ts` modules) is not part
of the source tree; only its test suites and the architecture document
are.  The definitions below are therefore modelled from the specification
(sections 3 and 4), with timestamps as naturals and the SQLite engine's
tables as in-memory lists in insertion order. -/

/-- Modelled from the spec: the `mode` enum of a Session row. -/
inductive Mode
  | docker
  | native
  deriving DecidableEq, Repr

/-- Modelled from the spec: one Session row.  `id` is the rowid (insertion
counter), `destroyed_at` present marks the row soft-deleted. -/
structure SessionRow where
  id : Nat
  session_id : String
  project_root : String
  session_dir : String
  branch : String
  mode : Mode
  in_place : Bool
  created_at : Nat
  destroyed_at : Option Nat
  deriving DecidableEq, Repr

/-- Modelled from the spec: one PortAllocation row,
`(session_id, service_name) -> port`. -/
structure PortAllocation where
  session_id : String
  service : String
  port : Nat
  deriving DecidableEq, Repr

/-- Modelled from the spec: one Reservation row. -/
structure Reservation where
  port : Nat
  reason : String
  created_at : Nat
  deriving DecidableEq, Repr

/-- Modelled from the spec: the error taxonomy of section 7 that the
registry operations themselves produce. -/
inductive StoreError
  | duplicateSession
  | allocationConflict
  deriving DecidableEq, Repr

/-- Modelled from the spec: the two recognized generations of the Session
table's uniqueness rule, as detected at `open`. -/
inductive Generation
  | legacy
  | current
  deriving DecidableEq, Repr

/-- Modelled from the spec: the single store file holding the three
tables.  `nextId` is the next rowid handed out by an insert. -/
structure Store where
  sessions : List SessionRow
  allocations : List PortAllocation
  reservations : List Reservation
  nextId : Nat
  deriving DecidableEq, Repr

/-- An active session row (glossary: `destroyed_at` absent). -/
def isActiveRow (r : SessionRow) : Bool := r.destroyed_at.isNone

/-- Whether an active row with this `session_id` exists, in any project:
the current-generation uniqueness check of `insert`. -/
def hasActiveSessionId (st : Store) (sid : String) : Bool :=
  st.sessions.any (fun r => r.session_id == sid && isActiveRow r)

/-- Modelled from the spec:
`insert(sessionId, projectRoot, sessionDir, branch?, mode?, inPlace?)`
fails with `DuplicateSession` when an active row with that `session_id`
already exists, else appends a fresh row with `created_at` set to the
current time and `destroyed_at` absent; the optional arguments default to
`""`, `docker` and `false`. -/
def insert (st : Store) (sessionId projectRoot sessionDir : String)
    (branch : Option String) (mode : Option Mode) (inPlace : Option Bool)
    (now : Nat) : Except StoreError SessionRow × Store :=
  if hasActiveSessionId st sessionId then (.error .duplicateSession, st)
  else
    let row : SessionRow :=
      { id := st.nextId
        session_id := sessionId
        project_root := projectRoot
        session_dir := sessionDir
        branch := branch.getD ""
        mode := mode.getD .docker
        in_place := inPlace.getD false
        created_at := now
        destroyed_at := none }
    (.ok row, { st with sessions := st.sessions ++ [row], nextId := st.nextId + 1 })

/-- The key match used by `findSession` and `markDestroyed`:
an active row of this project with this session id. -/
def matchesKey (pr sid : String) (r : SessionRow) : Bool :=
  r.project_root == pr && r.session_id == sid && isActiveRow r

/-- Modelled from the spec: `findSession(projectRoot, sessionId)` returns
only active rows. -/
def findSession (st : Store) (pr sid : String) : Option SessionRow :=
  st.sessions.find? (matchesKey pr sid)

/-- Modelled from the spec: `listAll()`, active rows across all projects. -/
def listAll (st : Store) : List SessionRow :=
  st.sessions.filter isActiveRow

/-- Modelled from the spec: `listByProject(projectRoot)`, active rows of
one project ordered by `session_id` ascending. -/
def listByProject (st : Store) (pr : String) : List SessionRow :=
  (st.sessions.filter (fun r => r.project_root == pr && isActiveRow r)).mergeSort
    (fun a b => a.session_id ≤ b.session_id)

/-- Modelled from the spec: `markDestroyed(projectRoot, sessionId)` sets
`destroyed_at` on the matching active row and cascades the removal of that
session's PortAllocation rows; when no active row matches it is a no-op
returning `false`. -/
def markDestroyed (st : Store) (pr sid : String) (now : Nat) : Bool × Store :=
  if st.sessions.any (matchesKey pr sid) then
    (true,
      { st with
        sessions := st.sessions.map (fun r =>
          if matchesKey pr sid r then { r with destroyed_at := some now } else r)
        allocations := st.allocations.filter (fun a => a.session_id != sid) })
  else (false, st)

/-- The ports of the reservation table. -/
def reservedPorts (st : Store) : List Nat := st.reservations.map (fun r => r.port)

/-- Modelled from the spec: `reserve(port, reason)`; primary-key semantics
on `port`, so reserving an already-reserved port overwrites its reason. -/
def reservePort (st : Store) (port : Nat) (reason : String) (now : Nat) : Store :=
  if st.reservations.any (fun r => r.port == port) then
    { st with reservations := st.reservations.map (fun r =>
        if r.port == port then { r with reason := reason } else r) }
  else { st with reservations := st.reservations ++ [⟨port, reason, now⟩] }

/-- Modelled from the spec: `unreserve(port)`. -/
def unreservePort (st : Store) (port : Nat) : Store :=
  { st with reservations := st.reservations.filter (fun r => r.port != port) }

/-- The stored reason of a reservation. -/
def reservedReason (st : Store) (port : Nat) : Option String :=
  (st.reservations.find? (fun r => r.port == port)).map (fun r => r.reason)

/-- The ports currently allocated to active sessions. -/
def allocatedPorts (st : Store) : List Nat :=
  (st.allocations.filter (fun a => hasActiveSessionId st a.session_id)).map
    (fun a => a.port)

/-- Modelled from the spec: the allocator's exclusion set, currently
allocated ports of all active sessions together with all reserved ports. -/
def excludedPorts (st : Store) : List Nat :=
  allocatedPorts st ++ reservedPorts st

/-- Modelled from the spec: the probe loop of `allocate`.  `probe` is the
operating-system port probe (`getPort(\x7b exclude \x7d)`); each
discovered port is pushed onto the exclusion set before the next service
is probed. -/
def probeAll (probe : List Nat → Nat) : List Nat → List String → List (String × Nat)
  | _, [] => []
  | excl, s :: rest =>
    let p := probe excl
    (s, p) :: probeAll probe (p :: excl) rest

/-- Modelled from the spec: the single transaction inserting all
`(sessionId, service, port)` rows of one allocation. -/
def commitAllocations (st : Store) (sid : String) (allocs : List (String × Nat)) : Store :=
  { st with allocations := st.allocations ++ allocs.map (fun a => ⟨sid, a.1, a.2⟩) }

/-- One probe-and-commit attempt of `allocate`. -/
def allocateAttempt (probe : List Nat → Nat) (st : Store) (sid : String)
    (services : List String) : List (String × Nat) × Store :=
  let allocs := probeAll probe (excludedPorts st) services
  (allocs, commitAllocations st sid allocs)

/-- Modelled from the spec: `allocate(sessionId, serviceNames)`.  The
oracle `conflict k` tells whether the transaction of attempt `k` fails
with a uniqueness violation because a concurrent process committed one of
the same ports first; a first failure retries the whole probe-and-commit
sequence exactly once, a second failure is surfaced as
`AllocationConflict`. -/
def allocatePorts (probe : List Nat → Nat) (conflict : Nat → Bool) (st : Store)
    (sid : String) (services : List String) :
    Except StoreError (List (String × Nat) × Store) :=
  if conflict 0 then
    if conflict 1 then .error .allocationConflict
    else .ok (allocateAttempt probe st sid services)
  else .ok (allocateAttempt probe st sid services)

/-! ### The legacy-to-current migration -/

/-- One step of the fold selecting the first index-row pair whose row has
minimal `created_at` (the candidate is only replaced on a strictly
earlier `created_at`, so earlier rows win ties). -/
def pickStep (best : Option (Nat × SessionRow)) (p : Nat × SessionRow) :
    Option (Nat × SessionRow) :=
  match best with
  | none => some p
  | some b => if p.2.created_at < b.2.created_at then some p else some b

/-- The first index-row pair with minimal `created_at`. -/
def pickMin (l : List (Nat × SessionRow)) : Option (Nat × SessionRow) :=
  l.foldl pickStep none

/-- One step of the row-level version of `pickStep`. -/
def firstMinStep (best : Option SessionRow) (r : SessionRow) : Option SessionRow :=
  match best with
  | none => some r
  | some b => if r.created_at < b.created_at then some r else some b

/-- Modelled from the spec: the deterministic survivor among the active
rows sharing one `session_id` — the row with the earliest `created_at`,
ties broken by insertion order. -/
def firstMin (l : List SessionRow) : Option SessionRow :=
  l.foldl firstMinStep none

/-- The active rows carrying one session id, in insertion order. -/
def activesWith (rows : List SessionRow) (sid : String) : List SessionRow :=
  rows.filter (fun r => r.session_id == sid && isActiveRow r)

/-- The index-row pairs of the active rows with one session id. -/
def activePairs (rows : List SessionRow) (sid : String) : List (Nat × SessionRow) :=
  rows.enum.filter (fun p => p.2.session_id == sid && isActiveRow p.2)

/-- Modelled from the spec: the index of the row the migration keeps for
one `session_id`. -/
def keepIdx (rows : List SessionRow) (sid : String) : Option Nat :=
  (pickMin (activePairs rows sid)).map Prod.fst

/-- Modelled from the spec: the online migration rebuilding the Session
table under the current constraint; destroyed rows are kept as they are,
and for each `session_id` only the chosen active row survives, the other
active rows sharing its `session_id` being silently dropped. -/
def migrateRows (rows : List SessionRow) : List SessionRow :=
  (rows.enum.filter (fun p =>
    !isActiveRow p.2 || keepIdx rows p.2.session_id == some p.1)).map Prod.snd

/-- Modelled from the spec: `open(path)`; when the legacy generation is
detected on the Session table the manager migrates it, otherwise opening
leaves the data unchanged. -/
def openStore (g : Generation) (rows : List SessionRow) (allocs : List PortAllocation)
    (resvs : List Reservation) (nid : Nat) : Store :=
  match g with
  | .legacy => ⟨migrateRows rows, allocs, resvs, nid⟩
  | .current => ⟨rows, allocs, resvs, nid⟩

theorem foldl_pickStep_mem : ∀ (l : List (Nat × SessionRow))
    (acc : Option (Nat × SessionRow)) (p : Nat × SessionRow),
    l.foldl pickStep acc = some p → p ∈ l ∨ acc = some p := by
  intro l
  induction l with
  | nil => intro acc p h; exact Or.inr h
  | cons q t ih =>
    intro acc p h
    rcases ih (pickStep acc q) p h with hm | he
    · exact Or.inl (List.mem_cons_of_mem q hm)
    · cases acc with
      | none =>
        simp only [pickStep] at he
        obtain rfl := Option.some.inj he
        exact Or.inl (List.mem_cons_self q t)
      | some b =>
        simp only [pickStep] at he
        by_cases hlt : q.2.created_at < b.2.created_at
        · rw [if_pos hlt] at he
          obtain rfl := Option.some.inj he
          exact Or.inl (List.mem_cons_self q t)
        · rw [if_neg hlt] at he
          exact Or.inr he

theorem foldl_pickStep_some : ∀ (l : List (Nat × SessionRow)) (b : Nat × SessionRow),
    (l.foldl pickStep (some b)).isSome = true := by
  intro l
  induction l with
  | nil => intro b; rfl
  | cons q t ih =>
    intro b
    simp only [List.foldl_cons, pickStep]
    by_cases hlt : q.2.created_at < b.2.created_at
    · rw [if_pos hlt]; exact ih q
    · rw [if_neg hlt]; exact ih b

theorem foldl_pickStep_snd : ∀ (l : List (Nat × SessionRow))
    (accP : Option (Nat × SessionRow)) (accR : Option SessionRow),
    accP.map Prod.snd = accR →
    (l.foldl pickStep accP).map Prod.snd = (l.map Prod.snd).foldl firstMinStep accR := by
  intro l
  induction l with
  | nil => intro accP accR h; simpa using h
  | cons q t ih =>
    intro accP accR h
    simp only [List.foldl_cons, List.map_cons]
    refine ih _ _ ?_
    cases accP with
    | none =>
      simp only [Option.map_none'] at h
      simp [pickStep, firstMinStep, ← h]
    | some b =>
      simp only [Option.map_some'] at h
      simp only [pickStep, firstMinStep, ← h]
      by_cases hlt : q.2.created_at < b.2.created_at
      · rw [if_pos hlt, if_pos hlt]; rfl
      · rw [if_neg hlt, if_neg hlt]; rfl

theorem firstMin_min : ∀ (l : List SessionRow) (b c : SessionRow),
    l.foldl firstMinStep (some b) = some c →
    c.created_at ≤ b.created_at ∧ ∀ q ∈ l, c.created_at ≤ q.created_at := by
  intro l
  induction l with
  | nil =>
    intro b c h
    simp only [List.foldl_nil, Option.some.injEq] at h
    subst h
    exact ⟨le_rfl, by simp⟩
  | cons q t ih =>
    intro b c h
    simp only [List.foldl_cons, firstMinStep] at h
    by_cases hlt : q.created_at < b.created_at
    · rw [if_pos hlt] at h
      obtain ⟨h1, h2⟩ := ih q c h
      exact ⟨le_of_lt (lt_of_le_of_lt h1 hlt), fun r hr => by
        rcases List.mem_cons.mp hr with rfl | hr
        · exact h1
        · exact h2 r hr⟩
    · rw [if_neg hlt] at h
      obtain ⟨h1, h2⟩ := ih b c h
      exact ⟨h1, fun r hr => by
        rcases List.mem_cons.mp hr with rfl | hr
        · exact le_trans h1 (le_of_not_lt hlt)
        · exact h2 r hr⟩

theorem enumFrom_filter_map_snd (p : SessionRow → Bool) : ∀ (l : List SessionRow) (n : Nat),
    ((l.enumFrom n).filter (fun q => p q.2)).map Prod.snd = l.filter p := by
  intro l
  induction l with
  | nil => intro n; simp
  | cons a t ih =>
    intro n
    rw [List.enumFrom_cons]
    by_cases hp : p a
    · rw [List.filter_cons_of_pos (by simpa using hp), List.map_cons, ih,
        List.filter_cons_of_pos hp]
    · rw [List.filter_cons_of_neg (by simpa using hp), ih,
        List.filter_cons_of_neg hp]

theorem activePairs_map_snd (rows : List SessionRow) (sid : String) :
    (activePairs rows sid).map Prod.snd = activesWith rows sid := by
  unfold activePairs activesWith List.enum
  exact enumFrom_filter_map_snd (fun r => r.session_id == sid && isActiveRow r) rows 0

theorem activePairs_fst_nodup (rows : List SessionRow) (sid : String) :
    ((activePairs rows sid).map Prod.fst).Nodup := by
  have hsub : List.Sublist (activePairs rows sid) rows.enum := List.filter_sublist _
  have h1 : List.Sublist ((activePairs rows sid).map Prod.fst) (rows.enum.map Prod.fst) :=
    hsub.map Prod.fst
  exact (List.nodup_enum_map_fst rows).sublist h1

theorem filter_fst_eq_of_nodup : ∀ (l : List (Nat × SessionRow)) (i : Nat) (r : SessionRow),
    (l.map Prod.fst).Nodup → (i, r) ∈ l →
    l.filter (fun p => p.1 == i) = [(i, r)] := by
  intro l
  induction l with
  | nil => intro i r _ h; cases h
  | cons q t ih =>
    intro i r hnd hm
    simp only [List.map_cons, List.nodup_cons] at hnd
    obtain ⟨hq, hndt⟩ := hnd
    rcases List.mem_cons.mp hm with rfl | hmt
    · rw [List.filter_cons_of_pos (by simp)]
      have ht : t.filter (fun p => p.1 == i) = [] := by
        rw [List.filter_eq_nil_iff]
        intro p hp hc
        simp only [beq_iff_eq] at hc
        have hmem : p.1 ∈ t.map Prod.fst := List.mem_map_of_mem Prod.fst hp
        rw [hc] at hmem
        exact hq hmem
      rw [ht]
    · have hqi : ¬ (q.1 = i) := by
        intro hc
        have hmem : i ∈ t.map Prod.fst := by
          simpa using List.mem_map_of_mem Prod.fst hmt
        rw [hc] at hq
        exact hq hmem
      rw [List.filter_cons_of_neg (by simpa using hqi)]
      exact ih i r hndt hmt

/-- The central migration lemma: among the rows sharing one `session_id`,
exactly the first active row with minimal `created_at` survives the
migration (none when the id has no active row). -/
theorem migrate_activesWith (rows : List SessionRow) (sid : String) :
    activesWith (migrateRows rows) sid = (firstMin (activesWith rows sid)).toList := by
  have hcombined : activesWith (migrateRows rows) sid =
      ((activePairs rows sid).filter (fun p => keepIdx rows sid == some p.1)).map
        Prod.snd := by
    unfold activesWith migrateRows
    rw [List.filter_map, List.filter_filter]
    unfold activePairs
    rw [List.filter_filter]
    congr 1
    apply List.filter_congr
    intro p _
    by_cases hA : (p.2.session_id == sid && isActiveRow p.2) = true
    · have hsid : p.2.session_id = sid := by
        have := (Bool.and_eq_true _ _).mp hA
        exact beq_iff_eq.mp this.1
      have hact : isActiveRow p.2 = true := ((Bool.and_eq_true _ _).mp hA).2
      simp only [Function.comp, hA, hact, hsid, Bool.not_true, Bool.false_or,
        beq_self_eq_true, Bool.and_true, Bool.true_and]
    · have hA' : (p.2.session_id == sid && isActiveRow p.2) = false :=
        Bool.eq_false_iff.mpr hA
      simp only [Function.comp, hA', Bool.and_false, Bool.false_and]
  rw [hcombined]
  rcases hcase : activesWith rows sid with _ | ⟨r0, rest⟩
  · have hap : activePairs rows sid = [] := by
      have := activePairs_map_snd rows sid
      rw [hcase] at this
      exact List.map_eq_nil_iff.mp this
    rw [hap]
    simp [firstMin]
  · have hap : activePairs rows sid ≠ [] := by
      intro hc
      have := activePairs_map_snd rows sid
      rw [hc, hcase] at this
      exact List.cons_ne_nil _ _ this.symm
    have hsome : (pickMin (activePairs rows sid)).isSome = true := by
      rcases hq : activePairs rows sid with _ | ⟨q, t⟩
      · exact absurd hq hap
      · exact foldl_pickStep_some t q
    obtain ⟨⟨i, r⟩, hpick⟩ := Option.isSome_iff_exists.mp hsome
    have hkeep : keepIdx rows sid = some i := by
      unfold keepIdx
      rw [hpick]
      rfl
    have hmemp : (i, r) ∈ activePairs rows sid := by
      rcases foldl_pickStep_mem _ none _ hpick with hm | he
      · exact hm
      · cases he
    have hfe : (activePairs rows sid).filter (fun p => keepIdx rows sid == some p.1) =
        (activePairs rows sid).filter (fun p => p.1 == i) := by
      apply List.filter_congr
      intro p _
      rw [hkeep]
      by_cases hpi : p.1 = i
      · subst hpi; simp
      · have h1 : (some i == some p.1) = false := by
          rw [Bool.eq_false_iff]
          intro hc
          exact hpi (Option.some.inj (beq_iff_eq.mp hc)).symm
        have h2 : (p.1 == i) = false := by
          rw [Bool.eq_false_iff]
          intro hc
          exact hpi (beq_iff_eq.mp hc)
        rw [h1, h2]
    rw [hfe, filter_fst_eq_of_nodup _ i r (activePairs_fst_nodup rows sid) hmemp]
    have hright : firstMin (activesWith rows sid) = some r := by
      rw [← activePairs_map_snd]
      have hsnd := foldl_pickStep_snd (activePairs rows sid) none none rfl
      have hpick' : List.foldl pickStep none (activePairs rows sid) = some (i, r) := hpick
      unfold firstMin
      rw [← hsnd, hpick']
      rfl
    rw [← hcase, hright]
    rfl

/-! ### Session-registry claims -/

theorem markDestroyed_fst (st : Store) (pr sid : String) (now : Nat) :
    (markDestroyed st pr sid now).1 = st.sessions.any (matchesKey pr sid) := by
  unfold markDestroyed
  by_cases hb : st.sessions.any (matchesKey pr sid) = true
  · rw [if_pos hb]
    exact hb.symm
  · rw [if_neg hb]
    exact (Bool.eq_false_iff.mpr hb).symm

theorem markDestroyed_matches_false (st : Store) (pr sid : String) (now : Nat)
    (hb : st.sessions.any (matchesKey pr sid) = true) :
    ∀ r ∈ (markDestroyed st pr sid now).2.sessions, matchesKey pr sid r = false := by
  intro r hr
  simp only [markDestroyed, hb, if_true] at hr
  obtain ⟨r0, _, hr0⟩ := List.mem_map.mp hr
  by_cases hm : matchesKey pr sid r0 = true
  · rw [if_pos hm] at hr0
    subst hr0
    simp [matchesKey, isActiveRow]
  · rw [if_neg hm] at hr0
    subst hr0
    exact Bool.eq_false_iff.mpr hm

/-- Claim C3: whenever the store holds an active row with a given
`session_id`, inserting a new session with that `session_id` fails with
`DuplicateSession` regardless of the `project_root` used, and the store is
left unchanged. -/
theorem insert_duplicate_session (st : Store) (sid pr sd : String) (br : Option String)
    (mo : Option Mode) (ip : Option Bool) (now : Nat)
    (h : ∃ r ∈ st.sessions, r.session_id = sid ∧ r.destroyed_at = none) :
    insert st sid pr sd br mo ip now = (.error .duplicateSession, st) := by
  have hact : hasActiveSessionId st sid = true := by
    rw [hasActiveSessionId, List.any_eq_true]
    obtain ⟨r, hr, hsid, hdes⟩ := h
    exact ⟨r, hr, by simp [hsid, isActiveRow, hdes]⟩
  simp only [insert, hact, if_true]

/-- Concrete instantiation of the C3 theorem: re-inserting session id
`001` from a different project fails and the one-row store is unchanged. -/
theorem insert_duplicate_session_witness :
    insert ⟨[⟨0, "001", "/a", "/s/a/001", "", .docker, false, 1, none⟩], [], [], 1⟩
        "001" "/b" "/s/b/001" none none none 2 =
      (.error .duplicateSession,
        ⟨[⟨0, "001", "/a", "/s/a/001", "", .docker, false, 1, none⟩], [], [], 1⟩) :=
  insert_duplicate_session _ "001" "/b" "/s/b/001" none none none 2
    ⟨⟨0, "001", "/a", "/s/a/001", "", .docker, false, 1, none⟩, by decide, rfl, rfl⟩

/-- Claim C7: every successful `insert` returns a row whose `created_at`
is the current time and whose `destroyed_at` is absent, and omitted
optional arguments default to branch `""`, mode `docker` and
`in_place = false`. -/
theorem insert_ok_defaults (st : Store) (sid pr sd : String) (br : Option String)
    (mo : Option Mode) (ip : Option Bool) (now : Nat) (row : SessionRow) (st' : Store)
    (h : insert st sid pr sd br mo ip now = (.ok row, st')) :
    row.created_at = now ∧ row.destroyed_at = none
    ∧ (br = none → row.branch = "")
    ∧ (mo = none → row.mode = .docker)
    ∧ (ip = none → row.in_place = false) := by
  by_cases hact : hasActiveSessionId st sid = true
  · simp only [insert, hact, if_true, Prod.mk.injEq] at h
    cases h.1
  · simp only [insert, hact, if_false, Bool.false_eq_true, Prod.mk.injEq] at h
    obtain ⟨hrow, _⟩ := h
    obtain rfl := Except.ok.inj hrow
    refine ⟨rfl, rfl, fun hbr => ?_, fun hmo => ?_, fun hip => ?_⟩
    · rw [hbr]; rfl
    · rw [hmo]; rfl
    · rw [hip]; rfl

/-- Concrete instantiation of the C7 theorem: inserting into the empty
store with all optional arguments omitted. -/
theorem insert_ok_defaults_witness :
    (⟨0, "001", "/p", "/s/001", "", .docker, false, 42, none⟩ : SessionRow).created_at = 42
    ∧ (⟨0, "001", "/p", "/s/001", "", .docker, false, 42, none⟩ : SessionRow).destroyed_at = none
    ∧ ((none : Option String) = none →
        (⟨0, "001", "/p", "/s/001", "", .docker, false, 42, none⟩ : SessionRow).branch = "")
    ∧ ((none : Option Mode) = none →
        (⟨0, "001", "/p", "/s/001", "", .docker, false, 42, none⟩ : SessionRow).mode = .docker)
    ∧ ((none : Option Bool) = none →
        (⟨0, "001", "/p", "/s/001", "", .docker, false, 42, none⟩ : SessionRow).in_place = false) :=
  insert_ok_defaults ⟨[], [], [], 0⟩ "001" "/p" "/s/001" none none none 42
    ⟨0, "001", "/p", "/s/001", "", .docker, false, 42, none⟩
    ⟨[⟨0, "001", "/p", "/s/001", "", .docker, false, 42, none⟩], [], [], 1⟩ rfl

/-- Claim C5: `markDestroyed` returns `true` exactly when an active row
matches the `(project_root, session_id)` key, in which case every row of
that key is left with `destroyed_at` set, `findSession` for that key
returns absent, `listAll` and `listByProject` omit the row, and a second
`markDestroyed` on the same key returns `false`; when no active row
matches it returns `false` as a no-op, leaving the store unchanged. -/
theorem markDestroyed_spec (st : Store) (pr sid : String) (now : Nat) :
    ((markDestroyed st pr sid now).1 = true ↔
      ∃ r ∈ st.sessions, r.project_root = pr ∧ r.session_id = sid ∧ r.destroyed_at = none)
    ∧ ((markDestroyed st pr sid now).1 = true →
        (∀ r ∈ (markDestroyed st pr sid now).2.sessions,
          r.project_root = pr → r.session_id = sid → r.destroyed_at ≠ none)
        ∧ findSession (markDestroyed st pr sid now).2 pr sid = none
        ∧ (∀ r ∈ listAll (markDestroyed st pr sid now).2,
            ¬(r.project_root = pr ∧ r.session_id = sid))
        ∧ (∀ r ∈ listByProject (markDestroyed st pr sid now).2 pr, r.session_id ≠ sid)
        ∧ (∀ now2, (markDestroyed (markDestroyed st pr sid now).2 pr sid now2).1 = false))
    ∧ ((markDestroyed st pr sid now).1 = false → (markDestroyed st pr sid now).2 = st) := by
  by_cases hb : st.sessions.any (matchesKey pr sid) = true
  · have hfst : (markDestroyed st pr sid now).1 = true := by
      rw [markDestroyed_fst]
      exact hb
    have hmf := markDestroyed_matches_false st pr sid now hb
    refine ⟨⟨fun _ => ?_, fun _ => hfst⟩, fun _ => ⟨?_, ?_, ?_, ?_, ?_⟩, fun hfalse => ?_⟩
    · obtain ⟨r, hr, hm⟩ := List.any_eq_true.mp hb
      refine ⟨r, hr, ?_⟩
      simpa [matchesKey, isActiveRow, Option.isNone_iff_eq_none, and_assoc] using hm
    · intro r hr hpr hsid hdes
      have hcontra := hmf r hr
      simp [matchesKey, hpr, hsid, isActiveRow, hdes] at hcontra
    · rw [findSession, List.find?_eq_none]
      intro r hr
      rw [hmf r hr]
      simp
    · rintro r hr ⟨hpr, hsid⟩
      obtain ⟨hmem, hact⟩ := List.mem_filter.mp hr
      have hcontra := hmf r hmem
      simp [matchesKey, hpr, hsid, hact] at hcontra
    · intro r hr hsid
      rw [listByProject, List.mem_mergeSort] at hr
      obtain ⟨hmem, hcond⟩ := List.mem_filter.mp hr
      obtain ⟨hpr', hact⟩ := Bool.and_eq_true_iff.mp hcond
      have hcontra := hmf r hmem
      simp [matchesKey, beq_iff_eq.mp hpr', hsid, hact] at hcontra
    · intro now2
      have hb2 : (markDestroyed st pr sid now).2.sessions.any (matchesKey pr sid) = false := by
        rw [List.any_eq_false]
        intro r hr
        simp [hmf r hr]
      rw [markDestroyed_fst]
      exact hb2
    · rw [hfst] at hfalse
      cases hfalse
  · have hb' : st.sessions.any (matchesKey pr sid) = false := Bool.eq_false_iff.mpr hb
    have hmd : markDestroyed st pr sid now = (false, st) := by
      unfold markDestroyed
      rw [if_neg hb]
    refine ⟨⟨fun h => ?_, fun h => ?_⟩, fun h => ?_, fun _ => by rw [hmd]⟩
    · rw [hmd] at h
      cases h
    · exfalso
      apply hb
      rw [List.any_eq_true]
      obtain ⟨r, hr, h1, h2, h3⟩ := h
      exact ⟨r, hr, by simp [matchesKey, h1, h2, isActiveRow, h3]⟩
    · rw [hmd] at h
      cases h

/-- Concrete instantiation of the C5 theorem: destroying the only session
of a one-row store succeeds, and a second destroy on the same key returns
`false`. -/
theorem markDestroyed_spec_witness :
    ((markDestroyed ⟨[⟨0, "001", "/p", "/s/001", "", .docker, false, 1, none⟩], [], [], 1⟩
        "/p" "001" 9).1 = true)
    ∧ (∀ now2,
        (markDestroyed
          (markDestroyed ⟨[⟨0, "001", "/p", "/s/001", "", .docker, false, 1, none⟩], [], [], 1⟩
            "/p" "001" 9).2 "/p" "001" now2).1 = false) := by
  have hs := markDestroyed_spec
    ⟨[⟨0, "001", "/p", "/s/001", "", .docker, false, 1, none⟩], [], [], 1⟩ "/p" "001" 9
  have h1 : (markDestroyed ⟨[⟨0, "001", "/p", "/s/001", "", .docker, false, 1, none⟩],
      [], [], 1⟩ "/p" "001" 9).1 = true :=
    hs.1.mpr ⟨⟨0, "001", "/p", "/s/001", "", .docker, false, 1, none⟩, by decide, rfl, rfl, rfl⟩
  exact ⟨h1, (hs.2.1 h1).2.2.2.2⟩

theorem foldl_firstMinStep_some : ∀ (l : List SessionRow) (b : SessionRow),
    (l.foldl firstMinStep (some b)).isSome = true := by
  intro l
  induction l with
  | nil => intro b; rfl
  | cons q t ih =>
    intro b
    simp only [List.foldl_cons, firstMinStep]
    by_cases hlt : q.created_at < b.created_at
    · rw [if_pos hlt]; exact ih q
    · rw [if_neg hlt]; exact ih b

theorem foldl_firstMinStep_mem : ∀ (l : List SessionRow) (acc : Option SessionRow)
    (r : SessionRow), l.foldl firstMinStep acc = some r → r ∈ l ∨ acc = some r := by
  intro l
  induction l with
  | nil => intro acc r h; exact Or.inr h
  | cons q t ih =>
    intro acc r h
    rcases ih (firstMinStep acc q) r h with hm | he
    · exact Or.inl (List.mem_cons_of_mem q hm)
    · cases acc with
      | none =>
        simp only [firstMinStep] at he
        obtain rfl := Option.some.inj he
        exact Or.inl (List.mem_cons_self q t)
      | some b =>
        simp only [firstMinStep] at he
        by_cases hlt : q.created_at < b.created_at
        · rw [if_pos hlt] at he
          obtain rfl := Option.some.inj he
          exact Or.inl (List.mem_cons_self q t)
        · rw [if_neg hlt] at he
          exact Or.inr he

theorem firstMin_le (l : List SessionRow) (r : SessionRow) (h : firstMin l = some r) :
    ∀ q ∈ l, r.created_at ≤ q.created_at := by
  cases l with
  | nil => cases h
  | cons q0 t =>
    have h' : t.foldl firstMinStep (some q0) = some r := h
    obtain ⟨h1, h2⟩ := firstMin_min t q0 r h'
    intro q hq
    rcases List.mem_cons.mp hq with rfl | hq
    · exact h1
    · exact h2 q hq

/-- Claim C2: opening a store whose Session table carries the legacy
uniqueness rule migrates it to the current rule: for a `session_id` with
two active rows in two different projects, exactly one row with that id
survives in `listAll` — deterministically `firstMin` of its active rows,
the first-inserted row among those with the earliest `created_at` — and a
fresh `insert` reusing that `session_id` fails with `DuplicateSession`,
leaving the store unchanged. -/
theorem openStore_legacy_dedup (rows : List SessionRow) (allocs : List PortAllocation)
    (resvs : List Reservation) (nid : Nat) (sid : String) (r1 r2 : SessionRow)
    (h1 : r1 ∈ rows) (h2 : r2 ∈ rows)
    (hs1 : r1.session_id = sid) (hs2 : r2.session_id = sid)
    (ha1 : isActiveRow r1 = true) (ha2 : isActiveRow r2 = true)
    (hpr : r1.project_root ≠ r2.project_root) :
    ∃ r, (listAll (openStore .legacy rows allocs resvs nid)).filter
          (fun q => q.session_id == sid) = [r]
      ∧ firstMin (activesWith rows sid) = some r
      ∧ r ∈ activesWith rows sid
      ∧ (∀ q ∈ activesWith rows sid, r.created_at ≤ q.created_at)
      ∧ ∀ pr sd br mo ip now,
          insert (openStore .legacy rows allocs resvs nid) sid pr sd br mo ip now =
            (.error .duplicateSession, openStore .legacy rows allocs resvs nid) := by
  have hmem1 : r1 ∈ activesWith rows sid := by
    rw [activesWith, List.mem_filter]
    exact ⟨h1, by simp [hs1, ha1]⟩
  have hne : activesWith rows sid ≠ [] := fun hc => by
    rw [hc] at hmem1
    cases hmem1
  have hsome : (firstMin (activesWith rows sid)).isSome = true := by
    rcases hl : activesWith rows sid with _ | ⟨q, t⟩
    · exact absurd hl hne
    · exact foldl_firstMinStep_some t q
  obtain ⟨r, hr⟩ := Option.isSome_iff_exists.mp hsome
  have hsurv : activesWith (migrateRows rows) sid = [r] := by
    rw [migrate_activesWith, hr]
    rfl
  have hfilt : (listAll (openStore .legacy rows allocs resvs nid)).filter
      (fun q => q.session_id == sid) = [r] := by
    show ((migrateRows rows).filter isActiveRow).filter (fun q => q.session_id == sid) = [r]
    rw [List.filter_filter, ← hsurv]
    apply List.filter_congr
    intro q _
    rw [Bool.and_comm]
  have hrmem : r ∈ activesWith rows sid := by
    rcases foldl_firstMinStep_mem _ none r hr with hm | he
    · exact hm
    · cases he
  refine ⟨r, hfilt, hr, hrmem, firstMin_le _ r hr, fun pr sd br mo ip now => ?_⟩
  apply insert_duplicate_session
  have hrm : r ∈ (openStore Generation.legacy rows allocs resvs nid).sessions := by
    have : r ∈ activesWith (migrateRows rows) sid := by
      rw [hsurv]
      exact List.mem_singleton.mpr rfl
    exact (List.mem_filter.mp this).1
  have hprop := (List.mem_filter.mp (hsurv ▸ List.mem_singleton.mpr rfl :
      r ∈ activesWith (migrateRows rows) sid)).2
  obtain ⟨hsid', hact'⟩ := Bool.and_eq_true_iff.mp hprop
  exact ⟨r, hrm, beq_iff_eq.mp hsid', by
    simpa [isActiveRow, Option.isNone_iff_eq_none] using hact'⟩

/-! ### Port-allocator claims -/

theorem probeAll_spec (probe : List Nat → Nat) (hprobe : ∀ excl, probe excl ∉ excl) :
    ∀ (services : List String) (excl : List Nat),
      ((probeAll probe excl services).map Prod.fst = services)
      ∧ ((probeAll probe excl services).map Prod.snd).Nodup
      ∧ (∀ q ∈ (probeAll probe excl services).map Prod.snd, q ∉ excl) := by
  intro services
  induction services with
  | nil => intro excl; exact ⟨rfl, List.nodup_nil, by simp [probeAll]⟩
  | cons s rest ih =>
    intro excl
    obtain ⟨ih1, ih2, ih3⟩ := ih (probe excl :: excl)
    refine ⟨?_, ?_, ?_⟩
    · simp [probeAll, ih1]
    · simp only [probeAll, List.map_cons]
      rw [List.nodup_cons]
      exact ⟨fun hc => (ih3 _ hc) (List.mem_cons_self _ _), ih2⟩
    · intro q hq
      simp only [probeAll, List.map_cons, List.mem_cons] at hq
      rcases hq with rfl | hq
      · exact hprobe excl
      · intro hc
        exact ih3 q hq (List.mem_cons_of_mem _ hc)

/-- Claim C1: for every session and ordered list of N service names, a
successful `allocate` returns N `(service, port)` pairs in input order,
with pairwise distinct ports, each outside the ports allocated to active
sessions and outside the reserved ports; the probe contract (`probe`
returns a port outside the exclusion set it is handed) is all that is
needed because each discovered port joins the exclusion set before the
next probe. -/
theorem allocatePorts_spec (probe : List Nat → Nat) (conflict : Nat → Bool) (st : Store)
    (sid : String) (services : List String)
    (hprobe : ∀ excl, probe excl ∉ excl)
    (res : List (String × Nat)) (st' : Store)
    (hok : allocatePorts probe conflict st sid services = .ok (res, st')) :
    res.length = services.length
    ∧ res.map Prod.fst = services
    ∧ (res.map Prod.snd).Nodup
    ∧ (∀ q ∈ res.map Prod.snd, q ∉ allocatedPorts st ∧ q ∉ reservedPorts st) := by
  have hres : res = probeAll probe (excludedPorts st) services := by
    unfold allocatePorts at hok
    by_cases h0 : conflict 0 = true
    · by_cases h1 : conflict 1 = true
      · simp only [h0, h1, if_true] at hok
        cases hok
      · simp only [h0, h1, if_true, Bool.false_eq_true, if_false] at hok
        have h2 : (allocateAttempt probe st sid services).1 = res :=
          congrArg Prod.fst (Except.ok.inj hok)
        exact h2.symm
    · simp only [h0, Bool.false_eq_true, if_false] at hok
      have h2 : (allocateAttempt probe st sid services).1 = res :=
        congrArg Prod.fst (Except.ok.inj hok)
      exact h2.symm
  obtain ⟨hfst, hnd, hnotin⟩ := probeAll_spec probe hprobe services (excludedPorts st)
  subst hres
  refine ⟨?_, hfst, hnd, ?_⟩
  · rw [← List.length_map _ Prod.fst, hfst]
  · intro q hq
    have hout := hnotin q hq
    exact ⟨fun hc => hout (List.mem_append_left _ hc),
      fun hc => hout (List.mem_append_right _ hc)⟩

/-- The probe used by concrete instantiations: one more than the maximum
of the exclusion set, hence never a member of it. -/
def maxSucc (l : List Nat) : Nat := l.foldr max 0 + 1

theorem le_foldr_max : ∀ (l : List Nat) (x : Nat), x ∈ l → x ≤ l.foldr max 0 := by
  intro l
  induction l with
  | nil => intro x hx; cases hx
  | cons a t ih =>
    intro x hx
    rcases List.mem_cons.mp hx with rfl | hx
    · exact le_max_left _ _
    · exact le_trans (ih x hx) (le_max_right _ _)

theorem maxSucc_not_mem : ∀ excl : List Nat, maxSucc excl ∉ excl := by
  intro excl hc
  have := le_foldr_max excl _ hc
  simp only [maxSucc] at this
  omega

/-- Concrete instantiation of the C1 theorem: allocating `postgres` and
`app` on the empty store with the `maxSucc` probe yields ports 1 and 2. -/
theorem allocatePorts_spec_witness :
    ([("postgres", 1), ("app", 2)] : List (String × Nat)).length =
      (["postgres", "app"] : List String).length
    ∧ ([("postgres", 1), ("app", 2)] : List (String × Nat)).map Prod.fst = ["postgres", "app"]
    ∧ (([("postgres", 1), ("app", 2)] : List (String × Nat)).map Prod.snd).Nodup
    ∧ (∀ q ∈ ([("postgres", 1), ("app", 2)] : List (String × Nat)).map Prod.snd,
        q ∉ allocatedPorts ⟨[], [], [], 0⟩ ∧ q ∉ reservedPorts ⟨[], [], [], 0⟩) :=
  allocatePorts_spec maxSucc (fun _ => false) ⟨[], [], [], 0⟩ "s1" ["postgres", "app"]
    maxSucc_not_mem [("postgres", 1), ("app", 2)]
    (commitAllocations ⟨[], [], [], 0⟩ "s1" [("postgres", 1), ("app", 2)]) rfl

/-- Claim C6: the transaction-conflict oracle is consulted for at most two
probe-and-commit attempts — the outcome of `allocate` is unchanged by any
oracle agreeing on attempts 0 and 1 — and `allocate` surfaces
`AllocationConflict` exactly when both attempts fail, the second failure
not being retried. -/
theorem allocatePorts_retry_once (probe : List Nat → Nat) (conflict : Nat → Bool)
    (st : Store) (sid : String) (services : List String) :
    (allocatePorts probe conflict st sid services = .error .allocationConflict ↔
      conflict 0 = true ∧ conflict 1 = true)
    ∧ (∀ conflict2 : Nat → Bool, conflict2 0 = conflict 0 → conflict2 1 = conflict 1 →
        allocatePorts probe conflict2 st sid services =
          allocatePorts probe conflict st sid services) := by
  refine ⟨⟨fun h => ?_, fun h => ?_⟩, fun c2 e0 e1 => ?_⟩
  · by_cases h0 : conflict 0 = true
    · by_cases h1 : conflict 1 = true
      · exact ⟨h0, h1⟩
      · simp only [allocatePorts, h0, h1, if_true, Bool.false_eq_true, if_false] at h
        cases h
    · simp only [allocatePorts, h0, Bool.false_eq_true, if_false] at h
      cases h
  · simp only [allocatePorts, h.1, h.2, if_true]
  · unfold allocatePorts
    rw [e0, e1]

/-- Concrete instantiation of the C6 theorem: an oracle failing both
attempts yields `AllocationConflict`, and the outcome ignores the oracle
beyond attempt 1. -/
theorem allocatePorts_retry_once_witness :
    allocatePorts maxSucc (fun _ => true) ⟨[], [], [], 0⟩ "s1" ["postgres"] =
      .error .allocationConflict
    ∧ allocatePorts maxSucc (fun k => k ≤ 1) ⟨[], [], [], 0⟩ "s1" ["postgres"] =
        allocatePorts maxSucc (fun _ => true) ⟨[], [], [], 0⟩ "s1" ["postgres"] :=
  ⟨(allocatePorts_retry_once maxSucc (fun _ => true) ⟨[], [], [], 0⟩ "s1" ["postgres"]).1.mpr
      ⟨rfl, rfl⟩,
    (allocatePorts_retry_once maxSucc (fun _ => true) ⟨[], [], [], 0⟩ "s1" ["postgres"]).2
      (fun k => k ≤ 1) (by decide) (by decide)⟩

/-- Claim C4: after a successful `markDestroyed`, no PortAllocation row of
that session remains; a port it held that is neither reserved nor held by
any other session is outside the allocator's exclusion set — immediately
eligible for reuse — and a subsequent `allocate` for a different session
whose probe discovers that port returns exactly that port. -/
theorem markDestroyed_frees_ports (st : Store) (pr sid : String) (now p : Nat)
    (svc : String) (st' : Store) (sid2 svc2 : String)
    (hmd : markDestroyed st pr sid now = (true, st'))
    (halloc : (⟨sid, svc, p⟩ : PortAllocation) ∈ st.allocations)
    (hres : p ∉ reservedPorts st)
    (hother : ∀ a ∈ st.allocations, a.port = p → a.session_id = sid) :
    (∀ a ∈ st'.allocations, a.session_id ≠ sid)
    ∧ p ∉ excludedPorts st'
    ∧ allocatePorts (fun _ => p) (fun _ => false) st' sid2 [svc2] =
        .ok ([(svc2, p)], commitAllocations st' sid2 [(svc2, p)]) := by
  by_cases hb : st.sessions.any (matchesKey pr sid) = true
  · have hst' : st' =
        { st with
          sessions := st.sessions.map (fun r =>
            if matchesKey pr sid r then { r with destroyed_at := some now } else r)
          allocations := st.allocations.filter (fun a => a.session_id != sid) } := by
      unfold markDestroyed at hmd
      rw [if_pos hb] at hmd
      exact ((Prod.mk.inj hmd).2).symm
    subst hst'
    refine ⟨?_, ?_, ?_⟩
    · intro a ha
      have hbne := (List.mem_filter.mp ha).2
      exact bne_iff_ne.mp hbne
    · intro hc
      rcases List.mem_append.mp hc with hin | hin
      · unfold allocatedPorts at hin
        obtain ⟨a, hafilt, hap⟩ := List.mem_map.mp hin
        have h1 := List.mem_filter.mp hafilt
        have h2 := List.mem_filter.mp h1.1
        have hsid : a.session_id = sid := hother a h2.1 hap
        exact bne_iff_ne.mp h2.2 hsid
      · exact hres hin
    · rfl
  · exfalso
    have hmd' : markDestroyed st pr sid now = (false, st) := by
      unfold markDestroyed
      rw [if_neg hb]
    rw [hmd'] at hmd
    cases (Prod.mk.inj hmd).1

/-- Concrete instantiation of the C4 theorem: destroying session `001`
removes its allocation of port 7, and an allocate for session `002` whose
probe discovers port 7 returns it. -/
theorem markDestroyed_frees_ports_witness :
    (∀ a ∈ (markDestroyed
        ⟨[⟨0, "001", "/p", "/s/001", "", .docker, false, 1, none⟩],
          [⟨"001", "postgres", 7⟩], [], 1⟩ "/p" "001" 9).2.allocations,
      a.session_id ≠ "001")
    ∧ 7 ∉ excludedPorts (markDestroyed
        ⟨[⟨0, "001", "/p", "/s/001", "", .docker, false, 1, none⟩],
          [⟨"001", "postgres", 7⟩], [], 1⟩ "/p" "001" 9).2
    ∧ allocatePorts (fun _ => 7) (fun _ => false)
        (markDestroyed
          ⟨[⟨0, "001", "/p", "/s/001", "", .docker, false, 1, none⟩],
            [⟨"001", "postgres", 7⟩], [], 1⟩ "/p" "001" 9).2 "002" ["postgres"] =
      .ok ([("postgres", 7)],
        commitAllocations
          (markDestroyed
            ⟨[⟨0, "001", "/p", "/s/001", "", .docker, false, 1, none⟩],
              [⟨"001", "postgres", 7⟩], [], 1⟩ "/p" "001" 9).2 "002" [("postgres", 7)]) :=
  markDestroyed_frees_ports
    ⟨[⟨0, "001", "/p", "/s/001", "", .docker, false, 1, none⟩],
      [⟨"001", "postgres", 7⟩], [], 1⟩
    "/p" "001" 9 7 "postgres"
    (markDestroyed
      ⟨[⟨0, "001", "/p", "/s/001", "", .docker, false, 1, none⟩],
        [⟨"001", "postgres", 7⟩], [], 1⟩ "/p" "001" 9).2 "002" "postgres"
    (by decide) (by decide) (by decide) (by decide)

/-- Concrete instantiation of the C2 theorem, mirroring the migration
test: legacy rows `001` in `/a` and `/b` (equal `created_at`, so the
first-inserted `/a` row is kept) and `002` in `/a`. -/
theorem openStore_legacy_dedup_witness :
    ∃ r, (listAll (openStore .legacy
          [⟨0, "001", "/a", "/s/a/001", "", .docker, false, 5, none⟩,
            ⟨1, "001", "/b", "/s/b/001", "", .docker, false, 5, none⟩,
            ⟨2, "002", "/a", "/s/a/002", "", .docker, false, 6, none⟩] [] [] 3)).filter
          (fun q => q.session_id == "001") = [r]
      ∧ firstMin (activesWith
          [⟨0, "001", "/a", "/s/a/001", "", .docker, false, 5, none⟩,
            ⟨1, "001", "/b", "/s/b/001", "", .docker, false, 5, none⟩,
            ⟨2, "002", "/a", "/s/a/002", "", .docker, false, 6, none⟩] "001") = some r
      ∧ r ∈ activesWith
          [⟨0, "001", "/a", "/s/a/001", "", .docker, false, 5, none⟩,
            ⟨1, "001", "/b", "/s/b/001", "", .docker, false, 5, none⟩,
            ⟨2, "002", "/a", "/s/a/002", "", .docker, false, 6, none⟩] "001"
      ∧ (∀ q ∈ activesWith
          [⟨0, "001", "/a", "/s/a/001", "", .docker, false, 5, none⟩,
            ⟨1, "001", "/b", "/s/b/001", "", .docker, false, 5, none⟩,
            ⟨2, "002", "/a", "/s/a/002", "", .docker, false, 6, none⟩] "001",
          r.created_at ≤ q.created_at)
      ∧ ∀ pr sd br mo ip now,
          insert (openStore .legacy
            [⟨0, "001", "/a", "/s/a/001", "", .docker, false, 5, none⟩,
              ⟨1, "001", "/b", "/s/b/001", "", .docker, false, 5, none⟩,
              ⟨2, "002", "/a", "/s/a/002", "", .docker, false, 6, none⟩] [] [] 3)
            "001" pr sd br mo ip now =
          (.error .duplicateSession, openStore .legacy
            [⟨0, "001", "/a", "/s/a/001", "", .docker, false, 5, none⟩,
              ⟨1, "001", "/b", "/s/b/001", "", .docker, false, 5, none⟩,
              ⟨2, "002", "/a", "/s/a/002", "", .docker, false, 6, none⟩] [] [] 3) :=
  openStore_legacy_dedup
    [⟨0, "001", "/a", "/s/a/001", "", .docker, false, 5, none⟩,
      ⟨1, "001", "/b", "/s/b/001", "", .docker, false, 5, none⟩,
      ⟨2, "002", "/a", "/s/a/002", "", .docker, false, 6, none⟩] [] [] 3 "001"
    ⟨0, "001", "/a", "/s/a/001", "", .docker, false, 5, none⟩
    ⟨1, "001", "/b", "/s/b/001", "", .docker, false, 5, none⟩
    (by decide) (by decide) rfl rfl rfl rfl (by decide)

/-! ### Reservation-store claim -/

/-- Claim C8: `reserve` on an already-reserved port succeeds and
overwrites the stored reason without creating a second row — the port
still appears exactly once among the reserved ports — and `unreserve`
removes it. -/
theorem reservePort_overwrite (st : Store) (p : Nat) (reason2 : String) (now : Nat)
    (h : (reservedPorts st).count p = 1) :
    reservedReason (reservePort st p reason2 now) p = some reason2
    ∧ (reservedPorts (reservePort st p reason2 now)).count p = 1
    ∧ p ∉ reservedPorts (unreservePort (reservePort st p reason2 now) p) := by
  have hmem : p ∈ reservedPorts st := by
    have hpos : 0 < (reservedPorts st).count p := by omega
    exact List.count_pos_iff.mp hpos
  have hany : st.reservations.any (fun r => r.port == p) = true := by
    rw [List.any_eq_true]
    obtain ⟨resv, hresv, hport⟩ := List.mem_map.mp hmem
    exact ⟨resv, hresv, by simp [hport]⟩
  have hover : reservePort st p reason2 now =
      { st with reservations := st.reservations.map (fun r =>
          if r.port == p then { r with reason := reason2 } else r) } := by
    unfold reservePort
    rw [if_pos hany]
  have hports : ∀ r : Reservation,
      ((fun r => if r.port == p then { r with reason := reason2 } else r) r).port =
        r.port := by
    intro r
    by_cases hr : (r.port == p) = true
    · simp [hr]
    · simp [hr]
  rw [hover]
  have hmapports : (st.reservations.map (fun r =>
      if r.port == p then { r with reason := reason2 } else r)).map (fun r => r.port) =
      st.reservations.map (fun r => r.port) := by
    rw [List.map_map]
    exact List.map_congr_left (fun r _ => hports r)
  refine ⟨?_, ?_, ?_⟩
  · obtain ⟨resv0, hres0⟩ : ∃ r0,
        st.reservations.find? (fun r => r.port == p) = some r0 := by
      apply Option.isSome_iff_exists.mp
      rw [List.find?_isSome]
      obtain ⟨resv, hresv, hport⟩ := List.mem_map.mp hmem
      exact ⟨resv, hresv, by simp [hport]⟩
    have hcomp : ((fun r : Reservation => r.port == p) ∘ (fun r =>
        if r.port == p then { r with reason := reason2 } else r)) =
        (fun r : Reservation => r.port == p) := by
      funext r
      simp only [Function.comp]
      rw [hports r]
    have hfind : (st.reservations.map (fun r =>
        if r.port == p then { r with reason := reason2 } else r)).find?
          (fun r => r.port == p) =
        (st.reservations.find? (fun r => r.port == p)).map
          (fun r => if r.port == p then { r with reason := reason2 } else r) := by
      rw [List.find?_map, hcomp]
    have hp0 : (resv0.port == p) = true := (List.find?_eq_some.mp hres0).1
    show ((st.reservations.map (fun r =>
        if r.port == p then { r with reason := reason2 } else r)).find?
          (fun r => r.port == p)).map (fun r => r.reason) = some reason2
    rw [hfind, hres0]
    have hpe : resv0.port = p := beq_iff_eq.mp hp0
    simp [hpe]
  · show ((st.reservations.map (fun r =>
        if r.port == p then { r with reason := reason2 } else r)).map
          (fun r => r.port)).count p = 1
    rw [hmapports]
    exact h
  · intro hc
    obtain ⟨resv, hresv, hport⟩ := List.mem_map.mp hc
    have hfil := List.mem_filter.mp hresv
    have hbne := hfil.2
    rw [hport] at hbne
    simp at hbne

/-- Concrete instantiation of the C8 theorem: re-reserving port 5432
replaces the reason `manual` by `locked` in place, and unreserving
removes it. -/
theorem reservePort_overwrite_witness :
    reservedReason (reservePort ⟨[], [], [⟨5432, "manual", 0⟩], 0⟩ 5432 "locked" 3) 5432 =
      some "locked"
    ∧ (reservedPorts (reservePort ⟨[], [], [⟨5432, "manual", 0⟩], 0⟩ 5432 "locked" 3)).count
        5432 = 1
    ∧ 5432 ∉ reservedPorts
        (unreservePort (reservePort ⟨[], [], [⟨5432, "manual", 0⟩], 0⟩ 5432 "locked" 3) 5432) :=
  reservePort_overwrite ⟨[], [], [⟨5432, "manual", 0⟩], 0⟩ 5432 "locked" 3 (by decide)

end DevPrism
